import Mathlib

/-!
Shallow embedding of the uplite file-sharing server (src/uplite.js).

Strings are modelled as Lean strings, one `Char` per JavaScript BMP code
unit; the filesystem is a flat list of entries keyed by absolute paths
represented as component lists (the root is `[]`); each Express route
handler becomes a pure function from request data and filesystem state to
the successor state and an HTTP response.  Paths follow POSIX semantics
(`path.resolve`, `path.basename`, `path.join`, `path.extname`).
-/

namespace Uplite

/-- The character class `[a-zA-Z0-9_\-.]` of the sanitizing regex in
`multer.diskStorage.filename` (src/uplite.js line 72). -/
def allowedChar (c : Char) : Bool :=
  ('a' ≤ c && c ≤ 'z') || ('A' ≤ c && c ≤ 'Z') || ('0' ≤ c && c ≤ '9') ||
    c == '_' || c == '-' || c == '.'

/-- The characters matched by the JavaScript regex class `\s` (no `u` flag):
ASCII whitespace, NBSP, OGHAM space, the U+2000–U+200A range, line/paragraph
separators, narrow NBSP, medium mathematical space, ideographic space, BOM. -/
def jsWhitespaceChars : List Char :=
  ['\t', '\n', '\x0B', '\x0C', '\r', ' ', '\u00A0', '\u1680',
   '\u2000', '\u2001', '\u2002', '\u2003', '\u2004', '\u2005', '\u2006',
   '\u2007', '\u2008', '\u2009', '\u200A', '\u2028', '\u2029', '\u202F',
   '\u205F', '\u3000', '\uFEFF']

/-- Whether `c` matches the JavaScript regex `\s`. -/
def jsWhitespace (c : Char) : Bool :=
  jsWhitespaceChars.contains c

/-- One step of `.replace(/[^a-zA-Z0-9_\-.]/g, "_")`: a character outside the
allow-list becomes an underscore (src/uplite.js line 72). -/
def replChar (c : Char) : Char :=
  if allowedChar c then c else '_'

/-- `.replace(/\s+/g, "_")` (src/uplite.js line 73): each maximal run of
`\s`-characters is replaced by a single underscore.  The flag records whether
we are inside a run whose underscore has already been emitted. -/
def collapseWs : Bool → List Char → List Char
  | _, [] => []
  | inRun, c :: rest =>
    if jsWhitespace c then
      if inRun then collapseWs true rest else '_' :: collapseWs true rest
    else c :: collapseWs false rest

/-- The sanitizer of `multer.diskStorage.filename` (src/uplite.js lines 71–73):
first every character outside `[a-zA-Z0-9_\-.]` is replaced by `_`, then each
whitespace run of the result is collapsed to one `_`, in that order. -/
def sanitize (s : String) : String :=
  ⟨collapseWs false (s.data.map replChar)⟩

/-- Modelled from the spec's words for claim C5: sanitization "replaces every
character outside `[A-Za-z0-9_.-]` with `_` and collapses each run of
whitespace characters to a single `_`" — read as a description of the overall
effect on the original name, each whitespace run of the original collapses to
one underscore and every other disallowed character becomes one underscore. -/
def sanitizeSpec (s : String) : String :=
  ⟨(collapseWs false s.data).map replChar⟩

/-- The storage name chosen by `multer.diskStorage.filename`
(src/uplite.js line 74): millisecond timestamp, a dash, the sanitized
original name. -/
def storageName (timestamp : Nat) (originalname : String) : String :=
  toString timestamp ++ "-" ++ sanitize originalname

/-- POSIX `path.basename`: the part of the path after the last `/`, with
trailing slashes discarded first (`basename "/" = ""`, `basename ".." = ".."`). -/
def basename (p : String) : String :=
  ⟨(((p.data.reverse).dropWhile (· == '/')).takeWhile (· != '/')).reverse⟩

/-- Index of the last `.` in a component, if any. -/
def lastDotIdx (l : List Char) : Option Nat :=
  match l.reverse.findIdx? (· == '.') with
  | none => none
  | some i => some (l.length - 1 - i)

/-- Extension of a single path component, following Node's `path.extname`
rules: empty when the component has no dot, when its only relevant dot is the
leading character (`.bashrc`), or when the component is exactly `..`;
otherwise the suffix starting at the last dot. -/
def extOfComponent (b : List Char) : List Char :=
  match lastDotIdx b with
  | none => []
  | some d => if d = 0 ∨ b = ['.', '.'] then [] else b.drop d

/-- POSIX `path.extname`: the extension (with leading dot) of the last
component of the path. -/
def extname (p : String) : String :=
  ⟨extOfComponent (basename p).data⟩

/-- `.replace(".", "")` on a string: remove the first occurrence of `.`. -/
def removeFirstDot : List Char → List Char
  | [] => []
  | c :: rest => if c == '.' then rest else c :: removeFirstDot rest

/-- JavaScript `String.prototype.toLowerCase` restricted to ASCII letters
(the only case the extensions of this program distinguish). -/
def lowerChar (c : Char) : Char :=
  if 'A' ≤ c && c ≤ 'Z' then Char.ofNat (c.toNat + 32) else c

/-- Lower-case every character of a string. -/
def lowerStr (s : String) : String :=
  ⟨s.data.map lowerChar⟩

/-- JavaScript `String.prototype.trim`: strip leading and trailing
whitespace. -/
def jsTrim (s : String) : String :=
  ⟨((s.data.dropWhile jsWhitespace).reverse.dropWhile jsWhitespace).reverse⟩

/-- JavaScript `String.prototype.split(",")`, which keeps empty fields
(`"jpg,".split(",") = ["jpg", ""]`).  The accumulator holds the current
field reversed. -/
def splitCommaAux : List Char → List Char → List String
  | acc, [] => [⟨acc.reverse⟩]
  | acc, c :: rest =>
    if c == ',' then ⟨acc.reverse⟩ :: splitCommaAux [] rest
    else splitCommaAux (c :: acc) rest

/-- Split a string on commas. -/
def splitComma (s : String) : List String :=
  splitCommaAux [] s.data

/-- The extension computed by `upload.fileFilter` (src/uplite.js line 89):
`path.extname(file.originalname).toLowerCase().replace(".", "")`. -/
def fileExt (originalname : String) : String :=
  ⟨removeFirstDot (lowerStr (extname originalname)).data⟩

/-- `allowedExtensions` resolution (src/uplite.js lines 32–34): the empty
option string (JavaScript falsy) yields the empty list, otherwise the option
is split on commas and each entry is trimmed and lower-cased. -/
def parseExtensions (extensions : String) : List String :=
  if extensions = "" then []
  else (splitComma extensions).map (fun ext => lowerStr (jsTrim ext))

/-- Outcome of multer's `fileFilter` callback. -/
inductive FilterResult
  | accept
  | reject (msg : String)

deriving instance DecidableEq, Repr for FilterResult

/-- `upload.fileFilter` (src/uplite.js lines 81–97): with an empty allow-list
every part is accepted; otherwise the processed extension must be a member of
the allow-list, else the part is rejected with a message carrying the list. -/
def fileFilter (allowedExtensions : List String) (originalname : String) :
    FilterResult :=
  if allowedExtensions = [] then .accept
  else if allowedExtensions.contains (fileExt originalname) then .accept
  else .reject ("Invalid file type. Allowed extensions are: " ++
    String.intercalate ", " allowedExtensions)

/-- Whether `dir` is a prefix of `p` in the component representation:
`p` is `dir` itself or lies somewhere below it. -/
def isUnder : List String → List String → Bool
  | [], _ => true
  | _ :: _, [] => false
  | a :: as, b :: bs => a == b && isUnder as bs

/-- POSIX `path.join(dir, name)` for an absolute normalized `dir` (given as
its component list; `[]` is the root) and a `name` containing no slash, as
produced by `basename`: `join` concatenates and then normalizes, so `""` and
`"."` resolve to `dir` itself, `".."` to its parent, and anything else to a
direct child. -/
def joinName (dir : List String) (name : String) : List String :=
  if name = "" ∨ name = "." then dir
  else if name = ".." then dir.dropLast
  else dir ++ [name]

/-- One filesystem entry (file or directory), identified by its absolute
path in components, with the stat attributes the server reads. -/
structure FSEntry where
  path : List String
  mtime : Nat
  size : Nat

deriving instance DecidableEq, Repr for FSEntry

/-- The filesystem: a finite list of entries.  The list order is the
enumeration order `fs.readdir` reports. -/
structure FS where
  entries : List FSEntry

deriving instance DecidableEq, Repr for FS

/-- `fs.pathExists` of fs-extra. -/
def pathExists (fs : FS) (p : List String) : Bool :=
  fs.entries.any (fun e => e.path == p)

/-- `fs.remove` of fs-extra: removes the target and, like `rm -rf`,
everything below it; a missing target is not an error. -/
def removeRec (fs : FS) (p : List String) : FS :=
  ⟨fs.entries.filter (fun e => !(isUnder p e.path))⟩

/-- `fs.stat(..).mtimeMs`, when the entry exists. -/
def statMtime (fs : FS) (p : List String) : Option Nat :=
  (fs.entries.find? (fun e => e.path == p)).map (·.mtime)

/-- The immutable settings record resolved at startup (src/uplite.js
lines 26–34); `uploadDir` is `path.resolve(args.dir)`, kept in component
form. -/
structure Config where
  username : String
  password : String
  uploadDir : List String
  maxFiles : Nat
  maxSize : Nat
  allowedExtensions : List String

deriving instance DecidableEq, Repr for Config

/-- The credential pair `basic-auth` extracts from the Authorization
header. -/
structure Credentials where
  name : String
  pass : String

deriving instance DecidableEq, Repr for Credentials

/-- The credential test of the `auth` middleware (src/uplite.js line 57):
present and exactly the configured pair. -/
def authOk (cfg : Config) (creds : Option Credentials) : Bool :=
  match creds with
  | none => false
  | some c => c.name == cfg.username && c.pass == cfg.password

/-- An HTTP response: status, headers, body.  Rendered views are abstracted
to an informative body string; a redirect is a 302 with a Location header. -/
structure Response where
  status : Nat
  headers : List (String × String)
  body : String

deriving instance DecidableEq, Repr for Response

/-- The 401 response of the `auth` middleware (src/uplite.js lines 58–59). -/
def unauthorizedResponse : Response :=
  { status := 401
    headers := [("WWW-Authenticate", "Basic realm=\"uplite\"")]
    body := "Access Denied" }

/-- `res.redirect("/")`. -/
def redirectHome : Response :=
  { status := 302, headers := [("Location", "/")], body := "" }

/-- The name/mtime record built for each listed file (src/uplite.js
lines 144–147). -/
structure FileInfo where
  name : String
  time : Nat

deriving instance DecidableEq, Repr for FileInfo

/-- The name under which `p` is a direct child of `dir`, if it is one. -/
def childName? (dir : List String) (p : List String) : Option String :=
  if p.length = dir.length + 1 && isUnder dir p then p.getLast? else none

/-- `fs.readdir(uploadDir)`: the names of the direct children of `dir`, in
enumeration (entry-list) order. -/
def readdir (fs : FS) (dir : List String) : List String :=
  fs.entries.filterMap (fun e => childName? dir e.path)

/-- The stat pass of the listing route (src/uplite.js lines 137–152):
enumeration uses the snapshot `fs1`; the existence check and stat of each
name use the snapshot `fs2`, so a name that vanished in between maps to
`null` and is dropped by `.filter(Boolean)`. -/
def enumStat (fs1 fs2 : FS) (dir : List String) : List FileInfo :=
  (readdir fs1 dir).filterMap (fun n =>
    if pathExists fs2 (dir ++ [n]) then
      (statMtime fs2 (dir ++ [n])).map (fun t => { name := n, time := t })
    else none)

/-- Stable insertion into a list sorted by `time` descending: `x` is placed
before the first element not strictly newer than it, which is where the
stable JavaScript `sort((a, b) => b.time - a.time)` keeps an element that
preceded the rest. -/
def insertByTime (x : FileInfo) : List FileInfo → List FileInfo
  | [] => [x]
  | y :: ys => if y.time ≤ x.time then x :: y :: ys else y :: insertByTime x ys

/-- Stable sort by `time` descending (src/uplite.js line 153). -/
def sortByTime : List FileInfo → List FileInfo
  | [] => []
  | x :: xs => insertByTime x (sortByTime xs)

/-- The listing route's file-name computation (src/uplite.js lines 136–154). -/
def listFiles (fs1 fs2 : FS) (dir : List String) : List String :=
  (sortByTime (enumStat fs1 fs2 dir)).map (·.name)

/-- The path a client-supplied `:filename` parameter resolves to
(src/uplite.js lines 177–178, 203–204, 218–219):
`path.join(uploadDir, path.basename(filename))`. -/
def resolvedPath (cfg : Config) (filename : String) : List String :=
  joinName cfg.uploadDir (basename filename)

/-- GET `/` (src/uplite.js lines 134–161): render the sorted listing.  The
rendering of the EJS view is abstracted as the newline-joined names. -/
def indexRoute (cfg : Config) (fs : FS) : FS × Response :=
  (fs, { status := 200, headers := [],
         body := String.intercalate "\n" (listFiles fs fs cfg.uploadDir) })

/-- GET `/info/:filename` (src/uplite.js lines 176–200): 404 when the
base-named target does not exist, otherwise the rendered info view
(abstracted as the base name). -/
def infoRoute (cfg : Config) (filename : String) (fs : FS) : FS × Response :=
  if pathExists fs (resolvedPath cfg filename) then
    (fs, { status := 200, headers := [], body := basename filename })
  else
    (fs, { status := 404, headers := [], body := "File not found." })

/-- GET `/delete/:filename` (src/uplite.js lines 202–215): 404 when the
base-named target does not exist, otherwise the confirmation view. -/
def deleteGetRoute (cfg : Config) (filename : String) (fs : FS) :
    FS × Response :=
  if pathExists fs (resolvedPath cfg filename) then
    (fs, { status := 200, headers := [], body := basename filename })
  else
    (fs, { status := 404, headers := [], body := "File not found." })

/-- POST `/delete/:filename` (src/uplite.js lines 217–233): remove the
base-named target when it exists (a console warning, not an error, when it
does not), then redirect to the listing. -/
def deletePostRoute (cfg : Config) (filename : String) (fs : FS) :
    FS × Response :=
  if pathExists fs (resolvedPath cfg filename) then
    (removeRec fs (resolvedPath cfg filename), redirectHome)
  else
    (fs, redirectHome)

/-- One part of the multipart request: original name and byte size. -/
structure Part where
  originalname : String
  size : Nat

deriving instance DecidableEq, Repr for Part

/-- The decision of `upload.array("file", maxFiles)` with
`limits: { fileSize: maxSize }` (src/uplite.js lines 78–98): parts are
processed in order; a part beyond the `maxFiles` count aborts with multer's
`LIMIT_UNEXPECTED_FILE` message, a part rejected by `fileFilter` aborts with
the filter's message, a part larger than `maxSize` bytes aborts with multer's
`LIMIT_FILE_SIZE` message; otherwise all parts are accepted. -/
def multerDecision (cfg : Config) : List Part → Nat → Except String (List Part)
  | [], _ => .ok []
  | p :: rest, count =>
    if cfg.maxFiles ≤ count then .error "Unexpected field"
    else
      match fileFilter cfg.allowedExtensions p.originalname with
      | .reject msg => .error msg
      | .accept =>
        if cfg.maxSize < p.size then .error "File too large"
        else
          match multerDecision cfg rest (count + 1) with
          | .error msg => .error msg
          | .ok accepted => .ok (p :: accepted)

/-- Disk writes of the accepted parts: each is stored under
`path.join(uploadDir, storageName)` (src/uplite.js lines 65–76); `now` is the
request's millisecond timestamp. -/
def writeParts (cfg : Config) (now : Nat) (fs : FS) (accepted : List Part) :
    FS :=
  ⟨fs.entries ++ accepted.map (fun p =>
    { path := joinName cfg.uploadDir (storageName now p.originalname)
      mtime := now
      size := p.size })⟩

/-- POST `/upload` (src/uplite.js lines 163–174 with the global error handler
at lines 238–241): a multer error skips the route handler and reaches the
global error handler, which answers 500 with the error's message; on success
an empty file list answers 400, otherwise the accepted parts are on disk and
the response redirects to the listing.  On a multer error the already-stored
parts of the request are unlinked again by multer, so the filesystem is
unchanged. -/
def uploadRespond (cfg : Config) (now : Nat) (fs : FS) :
    Except String (List Part) → FS × Response
  | .error msg => (fs, { status := 500, headers := [], body := msg })
  | .ok accepted =>
    if accepted.isEmpty then
      (fs, { status := 400, headers := [], body := "No files were uploaded." })
    else
      (writeParts cfg now fs accepted, redirectHome)

/-- POST `/upload`: the multer decision followed by the response mapping. -/
def uploadRoute (cfg : Config) (now : Nat) (parts : List Part) (fs : FS) :
    FS × Response :=
  uploadRespond cfg now fs (multerDecision cfg parts 0)

/-- GET/HEAD `/files/*` (src/uplite.js line 235): `express.static` plus
`serve-index`, a read-only third-party pair, abstracted as serving the
requested entry under `uploadDir` when it exists. -/
def filesRoute (cfg : Config) (rel : List String) (fs : FS) : FS × Response :=
  if pathExists fs (cfg.uploadDir ++ rel) then
    (fs, { status := 200, headers := [], body := "" })
  else
    (fs, { status := 404, headers := [], body := "" })

/-- The authenticated routes of the server (src/uplite.js lines 134–235);
static assets under `/static` are exempt from the auth gate and touch no
uploaded file. -/
inductive Route
  | index
  | upload (parts : List Part)
  | info (filename : String)
  | deleteGet (filename : String)
  | deletePost (filename : String)
  | files (rel : List String)

deriving instance DecidableEq, Repr for Route

/-- Request dispatch: the `auth` middleware runs before every route handler
(src/uplite.js lines 134, 163, 176, 202, 217, 235) and on failure answers
401 with the challenge header, performing no further processing. -/
def handle (cfg : Config) (creds : Option Credentials) (now : Nat)
    (route : Route) (fs : FS) : FS × Response :=
  if authOk cfg creds then
    match route with
    | .index => indexRoute cfg fs
    | .upload parts => uploadRoute cfg now parts fs
    | .info f => infoRoute cfg f fs
    | .deleteGet f => deleteGetRoute cfg f fs
    | .deletePost f => deletePostRoute cfg f fs
    | .files rel => filesRoute cfg rel fs
  else
    (fs, unauthorizedResponse)

/-- Sample configuration used by concrete instances: defaults except for a
resolved upload directory `/srv/up`. -/
def cfgDemo : Config :=
  { username := "admin", password := "hunter2", uploadDir := ["srv", "up"],
    maxFiles := 10, maxSize := 100, allowedExtensions := [] }

/-- `cfgDemo` with the allow-list `--extensions jpg`. -/
def cfgJpg : Config :=
  { cfgDemo with allowedExtensions := ["jpg"] }

/-- `cfgDemo` with `--max-files 1 --max-size 10`. -/
def cfgOne : Config :=
  { cfgDemo with maxFiles := 1, maxSize := 10 }

/-- Sample filesystem: the upload directory, its parent, and one stored
file. -/
def fsDemo : FS :=
  ⟨[⟨["srv"], 0, 0⟩, ⟨["srv", "up"], 0, 0⟩, ⟨["srv", "up", "1-f.jpg"], 3, 7⟩]⟩

/-- Sample enumeration-time snapshot with three files under `/u`. -/
def fsSnap1 : FS :=
  ⟨[⟨["u", "a"], 5, 0⟩, ⟨["u", "b"], 9, 0⟩, ⟨["u", "c"], 5, 0⟩]⟩

/-- Sample stat-time snapshot in which `b` has vanished. -/
def fsSnap2 : FS :=
  ⟨[⟨["u", "a"], 5, 0⟩, ⟨["u", "c"], 5, 0⟩]⟩

/-- Characters acceptable in a stored file's name: no path separator
(forward or backward slash) and no control character (C0 or DEL). -/
def cleanChar (c : Char) : Bool :=
  !(c == '/' || c == '\\' || decide (c < ' ') || c == '\x7F')

/-- Invariant: every entry directly inside `uploadDir` has a clean name. -/
def storedNamesClean (cfg : Config) (fs : FS) : Prop :=
  ∀ e ∈ fs.entries, ∀ n, e.path = cfg.uploadDir ++ [n] →
    n.data.all cleanChar = true

theorem collapseWs_of_no_ws (l : List Char)
    (h : ∀ c ∈ l, jsWhitespace c = false) : ∀ b, collapseWs b l = l := by
  induction l with
  | nil => intro b; rfl
  | cons c rest ih =>
    intro b
    have hc : jsWhitespace c = false := h c (List.mem_cons_self ..)
    simp only [collapseWs, hc, Bool.false_eq_true, if_false]
    exact congrArg (c :: ·) (ih (fun x hx => h x (List.mem_cons_of_mem _ hx)) false)

theorem allowed_not_ws (c : Char) (h : allowedChar c = true) :
    jsWhitespace c = false := by
  cases hw : jsWhitespace c with
  | false => rfl
  | true =>
    exfalso
    have hmem : c ∈ jsWhitespaceChars := by
      rw [jsWhitespace] at hw
      exact List.mem_of_elem_eq_true hw
    fin_cases hmem <;> exact absurd h (by decide)

theorem jsWhitespace_replChar (c : Char) : jsWhitespace (replChar c) = false := by
  by_cases h : allowedChar c = true
  · rw [replChar, if_pos h]; exact allowed_not_ws c h
  · rw [replChar, if_neg h]; decide

/-- C5 (amended): the storage name is the millisecond timestamp, a dash, and
the original name with every character outside `[A-Za-z0-9_.-]` replaced by
one underscore apiece — after that per-character replacement no whitespace
remains, so the subsequent whitespace-run collapse changes nothing, and a run
of n whitespace characters ends up as n underscores, not one. -/
theorem C5_storage_name (ts : Nat) (name : String) :
    storageName ts name = toString ts ++ "-" ++ ⟨name.data.map replChar⟩ := by
  unfold storageName sanitize
  congr 1
  exact congrArg String.mk (collapseWs_of_no_ws _
    (fun c hc => by
      obtain ⟨c', -, rfl⟩ := List.mem_map.mp hc
      exact jsWhitespace_replChar c') false)

/-- C5 (counterexample): on the original name `"a  b"` (two spaces) the code
stores `5-a__b`, while collapsing the whitespace run to a single underscore
as the claim describes would give `5-a_b`. -/
theorem C5_counterexample :
    storageName 5 "a  b" = "5-a__b" ∧ sanitizeSpec "a  b" = "a_b" ∧
    storageName 5 "a  b" ≠ toString 5 ++ "-" ++ sanitizeSpec "a  b" := by
  decide

theorem isUnder_refl (l : List String) : isUnder l l = true := by
  induction l with
  | nil => rfl
  | cons a as ih => simp [isUnder, ih]

theorem isUnder_append (l m : List String) : isUnder l (l ++ m) = true := by
  induction l with
  | nil => rfl
  | cons a as ih => simp [isUnder, ih]

/-- C1 (amended): the info and delete handlers depend on the client-supplied
filename only through its base name, whose join with `uploadDir` stays inside
`uploadDir` for every base name other than `".."`. -/
theorem C1_base_name_resolution (cfg : Config) (fs : FS) (f g : String)
    (hfg : basename f = basename g) (hdd : basename f ≠ "..") :
    infoRoute cfg f fs = infoRoute cfg g fs ∧
    deletePostRoute cfg f fs = deletePostRoute cfg g fs ∧
    isUnder cfg.uploadDir (resolvedPath cfg f) = true := by
  have hr : resolvedPath cfg f = resolvedPath cfg g := by
    unfold resolvedPath; rw [hfg]
  refine ⟨?_, ?_, ?_⟩
  · unfold infoRoute; rw [hr, hfg]
  · unfold deletePostRoute; rw [hr]
  · unfold resolvedPath joinName
    by_cases h1 : basename f = "" ∨ basename f = "."
    · rw [if_pos h1]; exact isUnder_refl _
    · rw [if_neg h1, if_neg hdd]; exact isUnder_append _ _


/-- C1 (counterexample): the filename `".."` is its own base name, joins to
the parent of `uploadDir`, and that resolved path lies outside `uploadDir`. -/
theorem C1_counterexample :
    basename ".." = ".." ∧ resolvedPath cfgDemo ".." = ["srv"] ∧
    isUnder cfgDemo.uploadDir (resolvedPath cfgDemo "..") = false := by
  decide

theorem C1_witness :
    infoRoute cfgDemo "../../etc/passwd" fsDemo =
      infoRoute cfgDemo "passwd" fsDemo ∧
    deletePostRoute cfgDemo "../../etc/passwd" fsDemo =
      deletePostRoute cfgDemo "passwd" fsDemo ∧
    isUnder cfgDemo.uploadDir (resolvedPath cfgDemo "../../etc/passwd") = true :=
  C1_base_name_resolution cfgDemo fsDemo "../../etc/passwd" "passwd"
    (by decide) (by decide)

/-- C9: an `--extensions` value with an empty entry yields a non-empty
allow-list containing the empty string, and a file without extension passes
the filter. -/
theorem C9_empty_extension_entry (s name : String) (_h1 : s ≠ "")
    (h2 : "" ∈ parseExtensions s) (h3 : fileExt name = "") :
    parseExtensions s ≠ [] ∧ fileFilter (parseExtensions s) name = .accept := by
  have hne : parseExtensions s ≠ [] := List.ne_nil_of_mem h2
  refine ⟨hne, ?_⟩
  unfold fileFilter
  rw [if_neg hne, h3, if_pos ?_]
  exact List.elem_eq_true_of_mem h2

theorem C9_witness :
    parseExtensions "jpg," ≠ [] ∧
    fileFilter (parseExtensions "jpg,") "file" = .accept :=
  C9_empty_extension_entry "jpg," "file" (by decide) (by decide) (by decide)

/-- C2: a missing or mismatched credential pair makes every authenticated
route answer 401 with the Basic challenge header and leave the filesystem
untouched. -/
theorem C2_auth_gate (cfg : Config) (creds : Option Credentials) (now : Nat)
    (route : Route) (fs : FS)
    (h : ∀ c, creds = some c → c.name ≠ cfg.username ∨ c.pass ≠ cfg.password) :
    handle cfg creds now route fs = (fs, unauthorizedResponse) ∧
    unauthorizedResponse.status = 401 ∧
    ("WWW-Authenticate", "Basic realm=\"uplite\"") ∈ unauthorizedResponse.headers := by
  have hauth : authOk cfg creds = false := by
    cases creds with
    | none => rfl
    | some c =>
      rcases h c rfl with h1 | h1 <;>
        simp [authOk, h1]
  exact ⟨by simp [handle, hauth], rfl, by simp [unauthorizedResponse]⟩

theorem C2_witness :
    handle cfgDemo (some ⟨"admin", "wrong"⟩) 0 (.upload [⟨"a.txt", 1⟩]) fsDemo =
      (fsDemo, unauthorizedResponse) ∧
    unauthorizedResponse.status = 401 ∧
    ("WWW-Authenticate", "Basic realm=\"uplite\"") ∈ unauthorizedResponse.headers :=
  C2_auth_gate cfgDemo (some ⟨"admin", "wrong"⟩) 0 (.upload [⟨"a.txt", 1⟩]) fsDemo
    (by intro c hc; cases hc; right; decide)

/-- C3 (amended): a single-part upload whose extension misses a non-empty
allow-list is rejected with status 500 (the filter's error reaches the global
error handler, which answers 500, not the claimed 400), the message carries
the allow-list, the filesystem is unchanged; an empty allow-list accepts any
extension. -/
theorem C3_extension_rejection (cfg : Config) (now : Nat) (fs : FS) (p : Part)
    (name : String) (h0 : 0 < cfg.maxFiles) (h1 : cfg.allowedExtensions ≠ [])
    (h2 : cfg.allowedExtensions.contains (fileExt p.originalname) = false) :
    uploadRoute cfg now [p] fs =
      (fs, { status := 500, headers := [],
             body := "Invalid file type. Allowed extensions are: " ++
               String.intercalate ", " cfg.allowedExtensions }) ∧
    (uploadRoute cfg now [p] fs).2.status ≠ 400 ∧
    fileFilter [] name = .accept := by
  have hf : fileFilter cfg.allowedExtensions p.originalname =
      .reject ("Invalid file type. Allowed extensions are: " ++
        String.intercalate ", " cfg.allowedExtensions) := by
    unfold fileFilter
    rw [if_neg h1, if_neg (by simp only [h2]; decide)]
  have hcount : ¬ cfg.maxFiles ≤ 0 := by omega
  have hdec : multerDecision cfg [p] 0 =
      .error ("Invalid file type. Allowed extensions are: " ++
        String.intercalate ", " cfg.allowedExtensions) := by
    unfold multerDecision
    rw [if_neg hcount, hf]
  have hroute : uploadRoute cfg now [p] fs =
      (fs, { status := 500, headers := [],
             body := "Invalid file type. Allowed extensions are: " ++
               String.intercalate ", " cfg.allowedExtensions }) := by
    unfold uploadRoute
    rw [hdec]
    rfl
  refine ⟨hroute, ?_, rfl⟩
  rw [hroute]
  exact (by decide : (500 : Nat) ≠ 400)

/-- C3 (counterexample): with allow-list `["jpg"]`, uploading `x.png` answers
status 500, not the claimed 400 (the message does carry the allow-list and
the file is indeed absent afterward). -/
theorem C3_counterexample :
    (uploadRoute cfgJpg 9 [⟨"x.png", 1⟩] fsDemo).2.status = 500 ∧
    (uploadRoute cfgJpg 9 [⟨"x.png", 1⟩] fsDemo).2.status ≠ 400 ∧
    (uploadRoute cfgJpg 9 [⟨"x.png", 1⟩] fsDemo).2.body =
      "Invalid file type. Allowed extensions are: jpg" ∧
    (uploadRoute cfgJpg 9 [⟨"x.png", 1⟩] fsDemo).1 = fsDemo := by
  decide

theorem C3_witness :
    uploadRoute cfgJpg 9 [⟨"x.png", 1⟩] fsDemo =
      (fsDemo, { status := 500, headers := [],
                 body := "Invalid file type. Allowed extensions are: " ++
                   String.intercalate ", " cfgJpg.allowedExtensions }) ∧
    (uploadRoute cfgJpg 9 [⟨"x.png", 1⟩] fsDemo).2.status ≠ 400 ∧
    fileFilter [] "anything.bin" = .accept :=
  C3_extension_rejection cfgJpg 9 fsDemo ⟨"x.png", 1⟩ "anything.bin"
    (by decide) (by decide) (by decide)

theorem multer_error_of_violation (cfg : Config) (parts : List Part) :
    ∀ count : Nat, count ≤ cfg.maxFiles →
    (cfg.maxFiles < count + parts.length ∨ ∃ p ∈ parts, cfg.maxSize < p.size) →
    ∃ msg, multerDecision cfg parts count = .error msg := by
  induction parts with
  | nil =>
    intro count hc h
    rcases h with h | h
    · simp only [List.length_nil] at h; omega
    · simp at h
  | cons p rest ih =>
    intro count hc h
    by_cases hcount : cfg.maxFiles ≤ count
    · exact ⟨"Unexpected field", by unfold multerDecision; rw [if_pos hcount]⟩
    · cases hf : fileFilter cfg.allowedExtensions p.originalname with
      | reject msg =>
        exact ⟨msg, by unfold multerDecision; rw [if_neg hcount, hf]⟩
      | accept =>
        by_cases hs : cfg.maxSize < p.size
        · exact ⟨"File too large", by
            unfold multerDecision; rw [if_neg hcount, hf, if_pos hs]⟩
        · have h' : cfg.maxFiles < (count + 1) + rest.length ∨
              ∃ q ∈ rest, cfg.maxSize < q.size := by
            rcases h with h | h
            · left; simp at h; omega
            · right
              obtain ⟨q, hq, hqs⟩ := h
              rcases List.mem_cons.mp hq with rfl | hq'
              · exact absurd hqs hs
              · exact ⟨q, hq', hqs⟩
          obtain ⟨msg, hm⟩ := ih (count + 1) (by omega) h'
          exact ⟨msg, by
            unfold multerDecision; rw [if_neg hcount, hf, if_neg hs, hm]⟩

/-- C4 (amended): a request with more parts than `maxFiles`, or with an
oversized part, is rejected by multer before the route handler runs; the
response is status 500 (the limit error reaches the global error handler,
which answers 500 with multer's message, not the claimed 400 validation
error), no redirect to the listing is issued, and the filesystem is left
unchanged, so the offending part is never fully written. -/
theorem C4_limit_rejection (cfg : Config) (now : Nat) (fs : FS)
    (parts : List Part)
    (h : cfg.maxFiles < parts.length ∨ ∃ p ∈ parts, cfg.maxSize < p.size) :
    ∃ msg, multerDecision cfg parts 0 = .error msg ∧
      uploadRoute cfg now parts fs =
        (fs, { status := 500, headers := [], body := msg }) ∧
      (uploadRoute cfg now parts fs).2.status = 500 ∧
      (uploadRoute cfg now parts fs).2 ≠ redirectHome := by
  obtain ⟨msg, hm⟩ := multer_error_of_violation cfg parts 0 (Nat.zero_le _)
    (by simpa using h)
  have hroute : uploadRoute cfg now parts fs =
      (fs, { status := 500, headers := [], body := msg }) := by
    unfold uploadRoute
    rw [hm]
    rfl
  refine ⟨msg, hm, hroute, ?_, ?_⟩
  · rw [hroute]
  · rw [hroute]
    intro hcontra
    have : (500 : Nat) = 302 := congrArg Response.status hcontra
    omega

/-- C4 (counterexample): with `--max-files 1 --max-size 10`, a two-part
request answers 500 `Unexpected field` and a single 11-byte part answers 500
`File too large` — in both cases not the claimed 400. -/
theorem C4_counterexample :
    (uploadRoute cfgOne 9 [⟨"a.txt", 1⟩, ⟨"b.txt", 1⟩] fsDemo).2 =
      { status := 500, headers := [], body := "Unexpected field" } ∧
    (uploadRoute cfgOne 9 [⟨"a.txt", 1⟩, ⟨"b.txt", 1⟩] fsDemo).2.status ≠ 400 ∧
    (uploadRoute cfgOne 9 [⟨"a.txt", 11⟩] fsDemo).2 =
      { status := 500, headers := [], body := "File too large" } ∧
    (uploadRoute cfgOne 9 [⟨"a.txt", 11⟩] fsDemo).2.status ≠ 400 := by
  decide

theorem C4_witness :
    ∃ msg, multerDecision cfgOne [⟨"a.txt", 1⟩, ⟨"b.txt", 1⟩] 0 = .error msg ∧
      uploadRoute cfgOne 9 [⟨"a.txt", 1⟩, ⟨"b.txt", 1⟩] fsDemo =
        (fsDemo, { status := 500, headers := [], body := msg }) ∧
      (uploadRoute cfgOne 9 [⟨"a.txt", 1⟩, ⟨"b.txt", 1⟩] fsDemo).2.status = 500 ∧
      (uploadRoute cfgOne 9 [⟨"a.txt", 1⟩, ⟨"b.txt", 1⟩] fsDemo).2 ≠ redirectHome :=
  C4_limit_rejection cfgOne 9 fsDemo [⟨"a.txt", 1⟩, ⟨"b.txt", 1⟩]
    (Or.inl (by decide))

theorem pathExists_removeRec_self (fs : FS) (p : List String) :
    pathExists (removeRec fs p) p = false := by
  rw [pathExists, List.any_eq_false]
  intro e he
  have := (List.mem_filter.mp he).2
  intro heq
  rw [beq_iff_eq] at heq
  rw [heq, isUnder_refl] at this
  exact Bool.noConfusion this

/-- C8: the confirming delete removes the target when it exists, silently
does nothing when it has already vanished, redirects to the listing in both
cases, and repeating the request is the same no-op with the same redirect. -/
theorem C8_delete_idempotent (cfg : Config) (filename : String) (fs : FS) :
    (deletePostRoute cfg filename fs).2 = redirectHome ∧
    (pathExists fs (resolvedPath cfg filename) = true →
      (deletePostRoute cfg filename fs).1 =
        removeRec fs (resolvedPath cfg filename) ∧
      pathExists (deletePostRoute cfg filename fs).1
        (resolvedPath cfg filename) = false) ∧
    (pathExists fs (resolvedPath cfg filename) = false →
      (deletePostRoute cfg filename fs).1 = fs) ∧
    deletePostRoute cfg filename (deletePostRoute cfg filename fs).1 =
      ((deletePostRoute cfg filename fs).1, redirectHome) := by
  by_cases hex : pathExists fs (resolvedPath cfg filename) = true
  · have hroute : deletePostRoute cfg filename fs =
        (removeRec fs (resolvedPath cfg filename), redirectHome) := by
      unfold deletePostRoute
      rw [if_pos hex]
    have hgone : pathExists (removeRec fs (resolvedPath cfg filename))
        (resolvedPath cfg filename) = false := pathExists_removeRec_self _ _
    refine ⟨by rw [hroute], fun _ => ⟨by rw [hroute], by rw [hroute]; exact hgone⟩,
      fun hno => absurd hex (by rw [hno]; decide), ?_⟩
    rw [hroute]
    unfold deletePostRoute
    rw [if_neg (by rw [hgone]; decide)]
  · have hex' : pathExists fs (resolvedPath cfg filename) = false :=
      Bool.eq_false_iff.mpr hex
    have hroute : deletePostRoute cfg filename fs = (fs, redirectHome) := by
      unfold deletePostRoute
      rw [if_neg hex]
    refine ⟨by rw [hroute], fun hyes => absurd hyes hex, fun _ => by rw [hroute], ?_⟩
    rw [hroute]
    unfold deletePostRoute
    rw [if_neg hex]

theorem C8_witness :
    (deletePostRoute cfgDemo "1-f.jpg" fsDemo).1 =
      removeRec fsDemo (resolvedPath cfgDemo "1-f.jpg") ∧
    (deletePostRoute cfgDemo "1-f.jpg" fsDemo).2 = redirectHome ∧
    deletePostRoute cfgDemo "1-f.jpg" (deletePostRoute cfgDemo "1-f.jpg" fsDemo).1 =
      ((deletePostRoute cfgDemo "1-f.jpg" fsDemo).1, redirectHome) :=
  ⟨((C8_delete_idempotent cfgDemo "1-f.jpg" fsDemo).2.1 (by decide)).1,
   (C8_delete_idempotent cfgDemo "1-f.jpg" fsDemo).1,
   (C8_delete_idempotent cfgDemo "1-f.jpg" fsDemo).2.2.2⟩

/-- C10: the filenames `"."` and `".."` are their own base names, resolve to
`uploadDir` itself and to its parent, pass the existence check whenever those
directories exist, and the confirming delete then removes the whole resolved
directory recursively — after `POST /delete/.` nothing under `uploadDir` is
left. -/
theorem C10_dot_delete (cfg : Config) (fs : FS) :
    basename "." = "." ∧ basename ".." = ".." ∧
    resolvedPath cfg "." = cfg.uploadDir ∧
    resolvedPath cfg ".." = cfg.uploadDir.dropLast ∧
    (pathExists fs cfg.uploadDir = true →
      deletePostRoute cfg "." fs = (removeRec fs cfg.uploadDir, redirectHome) ∧
      ∀ e ∈ (deletePostRoute cfg "." fs).1.entries,
        isUnder cfg.uploadDir e.path = false) ∧
    (pathExists fs cfg.uploadDir.dropLast = true →
      deletePostRoute cfg ".." fs =
        (removeRec fs cfg.uploadDir.dropLast, redirectHome)) := by
  have hdot : resolvedPath cfg "." = cfg.uploadDir := by
    unfold resolvedPath
    rw [(by decide : basename "." = ".")]
    unfold joinName
    rw [if_pos (Or.inr rfl)]
  have hdotdot : resolvedPath cfg ".." = cfg.uploadDir.dropLast := by
    unfold resolvedPath
    rw [(by decide : basename ".." = "..")]
    unfold joinName
    rw [if_neg (by decide), if_pos rfl]
  refine ⟨by decide, by decide, hdot, hdotdot, ?_, ?_⟩
  · intro hex
    have hroute : deletePostRoute cfg "." fs =
        (removeRec fs cfg.uploadDir, redirectHome) := by
      unfold deletePostRoute
      rw [hdot, if_pos hex]
    refine ⟨hroute, ?_⟩
    rw [hroute]
    intro e he
    have := (List.mem_filter.mp he).2
    exact Bool.not_eq_true' .. |>.mp this
  · intro hex
    unfold deletePostRoute
    rw [hdotdot, if_pos hex]

theorem C10_witness :
    deletePostRoute cfgDemo "." fsDemo =
      (removeRec fsDemo cfgDemo.uploadDir, redirectHome) ∧
    (∀ e ∈ (deletePostRoute cfgDemo "." fsDemo).1.entries,
      isUnder cfgDemo.uploadDir e.path = false) ∧
    deletePostRoute cfgDemo ".." fsDemo =
      (removeRec fsDemo cfgDemo.uploadDir.dropLast, redirectHome) :=
  ⟨((C10_dot_delete cfgDemo fsDemo).2.2.2.2.1 (by decide)).1,
   ((C10_dot_delete cfgDemo fsDemo).2.2.2.2.1 (by decide)).2,
   (C10_dot_delete cfgDemo fsDemo).2.2.2.2.2 (by decide)⟩

theorem digitChar_clean (n : Nat) : cleanChar (Nat.digitChar n) = true := by
  by_cases h : n < 16
  · interval_cases n <;> decide
  · have hstar : Nat.digitChar n = '*' := by
      unfold Nat.digitChar
      repeat rw [if_neg (by omega)]
    rw [hstar]
    decide

theorem toDigitsCore_clean (b : Nat) : ∀ (fuel n : Nat) (ds : List Char),
    (∀ c ∈ ds, cleanChar c = true) →
    ∀ c ∈ Nat.toDigitsCore b fuel n ds, cleanChar c = true := by
  intro fuel
  induction fuel with
  | zero => intro n ds hds c hc; exact hds c hc
  | succ fuel ih =>
    intro n ds hds c hc
    have hext : ∀ x ∈ Nat.digitChar (n % b) :: ds, cleanChar x = true := by
      intro x hx
      rcases List.mem_cons.mp hx with rfl | hx'
      · exact digitChar_clean _
      · exact hds x hx'
    by_cases h : n / b = 0
    · simp only [Nat.toDigitsCore, h, if_pos] at hc
      exact hext c hc
    · simp only [Nat.toDigitsCore, h, if_false, if_neg] at hc
      exact ih (n / b) _ hext c hc

theorem natRepr_clean (n : Nat) : ∀ c ∈ (toString n).data, cleanChar c = true := by
  intro c hc
  exact toDigitsCore_clean 10 (n + 1) n []
    (fun x hx => absurd hx (List.not_mem_nil x)) c hc

theorem mem_collapseWs (l : List Char) :
    ∀ (b : Bool) (c : Char), c ∈ collapseWs b l → c = '_' ∨ c ∈ l := by
  induction l with
  | nil => intro b c hc; cases hc
  | cons a rest ih =>
    intro b c hc
    by_cases hw : jsWhitespace a = true
    · cases b with
      | true =>
        simp only [collapseWs, hw, if_pos, if_true] at hc
        rcases ih true c hc with h | h
        · exact Or.inl h
        · exact Or.inr (List.mem_cons_of_mem _ h)
      | false =>
        simp only [collapseWs, hw, if_pos, if_false] at hc
        rcases List.mem_cons.mp hc with rfl | hc'
        · exact Or.inl rfl
        · rcases ih true c hc' with h | h
          · exact Or.inl h
          · exact Or.inr (List.mem_cons_of_mem _ h)
    · rw [Bool.not_eq_true] at hw
      simp only [collapseWs, hw, Bool.false_eq_true, if_false] at hc
      rcases List.mem_cons.mp hc with rfl | hc'
      · exact Or.inr (List.mem_cons_self ..)
      · rcases ih false c hc' with h | h
        · exact Or.inl h
        · exact Or.inr (List.mem_cons_of_mem _ h)

theorem allowedChar_clean (c : Char) (h : allowedChar c = true) :
    cleanChar c = true := by
  simp only [allowedChar, Bool.or_eq_true, Bool.and_eq_true, decide_eq_true_eq,
    beq_iff_eq] at h
  rcases h with ((((⟨h1, h2⟩ | ⟨h1, h2⟩) | ⟨h1, h2⟩) | rfl) | rfl) | rfl <;>
    first
      | decide
      | (have h3 : (c == '/') = false := beq_eq_false_iff_ne.mpr
          (fun hq => by subst hq; exact absurd h1 (by decide))
         have h4 : (c == '\\') = false := beq_eq_false_iff_ne.mpr
          (fun hq => by
            subst hq
            first
              | exact absurd h1 (by decide)
              | exact absurd h2 (by decide))
         have h5 : decide (c < ' ') = false := decide_eq_false
          (fun hlt => absurd (lt_of_le_of_lt h1 hlt) (by decide))
         have h6 : (c == '\x7F') = false := beq_eq_false_iff_ne.mpr
          (fun hq => by subst hq; exact absurd h2 (by decide))
         simp [cleanChar, h3, h4, h5, h6])

theorem sanitize_clean (s : String) :
    ∀ c ∈ (sanitize s).data, cleanChar c = true := by
  intro c hc
  rcases mem_collapseWs (s.data.map replChar) false c hc with rfl | hm
  · decide
  · obtain ⟨c', -, rfl⟩ := List.mem_map.mp hm
    rw [replChar]
    by_cases ha : allowedChar c' = true
    · rw [if_pos ha]; exact allowedChar_clean c' ha
    · rw [if_neg ha]; decide

theorem storageName_data (ts : Nat) (name : String) :
    (storageName ts name).data =
      (toString ts).data ++ '-' :: (sanitize name).data := by
  unfold storageName
  simp

theorem storageName_clean (ts : Nat) (name : String) :
    ∀ c ∈ (storageName ts name).data, cleanChar c = true := by
  intro c hc
  rw [storageName_data] at hc
  rcases List.mem_append.mp hc with hl | hr
  · exact natRepr_clean ts c hl
  · rcases List.mem_cons.mp hr with rfl | hs
    · decide
    · exact sanitize_clean name c hs

theorem storageName_ne_special (ts : Nat) (name : String) :
    storageName ts name ≠ "" ∧ storageName ts name ≠ "." ∧
    storageName ts name ≠ ".." := by
  have hdash : '-' ∈ (storageName ts name).data := by
    rw [storageName_data]
    exact List.mem_append.mpr (Or.inr (List.mem_cons_self ..))
  refine ⟨fun h => ?_, fun h => ?_, fun h => ?_⟩ <;> rw [h] at hdash <;>
    exact absurd hdash (by decide)

theorem joinName_storage (dir : List String) (ts : Nat) (name : String) :
    joinName dir (storageName ts name) = dir ++ [storageName ts name] := by
  obtain ⟨h0, h1, h2⟩ := storageName_ne_special ts name
  unfold joinName
  rw [if_neg (by rintro (h | h); exacts [h0 h, h1 h]), if_neg h2]

theorem basename_no_slash (f : String) :
    ∀ c ∈ (basename f).data, (c == '/') = false := by
  intro c hc
  have hc' : c ∈ (f.data.reverse.dropWhile (· == '/')).takeWhile (· != '/') :=
    List.mem_reverse.mp hc
  have := List.mem_takeWhile_imp hc'
  simpa using this

/-- C6: a name produced by the sanitizer contains neither path-separator nor
control characters, a client-supplied filename is reduced to its slash-free
base name on read and delete, and every request handler preserves the
invariant that each entry directly inside `uploadDir` has a clean name. -/
theorem C6_clean_name_invariant (ts : Nat) (name f : String) (cfg : Config)
    (creds : Option Credentials) (now : Nat) (route : Route) (fs : FS) :
    (∀ c ∈ (storageName ts name).data, cleanChar c = true) ∧
    (∀ c ∈ (basename f).data, (c == '/') = false) ∧
    (storedNamesClean cfg fs →
      storedNamesClean cfg (handle cfg creds now route fs).1) := by
  refine ⟨storageName_clean ts name, basename_no_slash f, ?_⟩
  intro hinv
  by_cases hauth : authOk cfg creds = true
  · cases route with
    | index =>
      simp only [handle]
      rw [if_pos hauth]
      exact hinv
    | info g =>
      simp only [handle]
      rw [if_pos hauth]
      unfold infoRoute
      split <;> exact hinv
    | deleteGet g =>
      simp only [handle]
      rw [if_pos hauth]
      unfold deleteGetRoute
      split <;> exact hinv
    | files rel =>
      simp only [handle]
      rw [if_pos hauth]
      unfold filesRoute
      split <;> exact hinv
    | deletePost g =>
      simp only [handle]
      rw [if_pos hauth]
      unfold deletePostRoute
      split
      · intro e he n hn
        exact hinv e (List.mem_filter.mp he).1 n hn
      · exact hinv
    | upload parts =>
      simp only [handle]
      rw [if_pos hauth]
      unfold uploadRoute
      cases hdec : multerDecision cfg parts 0 with
      | error msg =>
        exact hinv
      | ok accepted =>
        simp only [uploadRespond]
        by_cases hemp : accepted.isEmpty = true
        · rw [if_pos hemp]; exact hinv
        · rw [if_neg hemp]
          intro e he n hn
          unfold writeParts at he
          rcases List.mem_append.mp he with hold | hnew
          · exact hinv e hold n hn
          · obtain ⟨p, -, rfl⟩ := List.mem_map.mp hnew
            rw [joinName_storage] at hn
            have hsn : [storageName now p.originalname] = [n] :=
              List.append_cancel_left hn
            have hn' : storageName now p.originalname = n := by
              injection hsn
            rw [List.all_eq_true]
            intro c hcmem
            rw [← hn'] at hcmem
            exact storageName_clean now p.originalname c hcmem
  · simp only [handle]
    rw [if_neg hauth]
    exact hinv

theorem C6_witness :
    storedNamesClean cfgDemo
      (handle cfgDemo (some ⟨"admin", "hunter2"⟩) 7
        (.upload [⟨"a b.txt", 3⟩]) ⟨[]⟩).1 :=
  (C6_clean_name_invariant 7 "a b.txt" "x" cfgDemo (some ⟨"admin", "hunter2"⟩) 7
    (.upload [⟨"a b.txt", 3⟩]) ⟨[]⟩).2.2
    (fun e he => absurd he (List.not_mem_nil e))

theorem insertByTime_perm (x : FileInfo) (l : List FileInfo) :
    (insertByTime x l).Perm (x :: l) := by
  induction l with
  | nil => exact List.Perm.refl _
  | cons y ys ih =>
    rw [insertByTime]
    by_cases hxy : y.time ≤ x.time
    · rw [if_pos hxy]
    · rw [if_neg hxy]
      exact (ih.cons y).trans (List.Perm.swap x y ys)

theorem sortByTime_perm (l : List FileInfo) : (sortByTime l).Perm l := by
  induction l with
  | nil => exact List.Perm.refl _
  | cons x xs ih => exact (insertByTime_perm x (sortByTime xs)).trans (ih.cons x)

theorem mem_insertByTime (x z : FileInfo) (l : List FileInfo) :
    z ∈ insertByTime x l ↔ z = x ∨ z ∈ l := by
  rw [(insertByTime_perm x l).mem_iff, List.mem_cons]

theorem insertByTime_pairwise (x : FileInfo) (l : List FileInfo)
    (hl : l.Pairwise (fun a b => b.time ≤ a.time)) :
    (insertByTime x l).Pairwise (fun a b => b.time ≤ a.time) := by
  induction l with
  | nil => simp [insertByTime]
  | cons y ys ih =>
    rw [insertByTime]
    obtain ⟨hy, hys⟩ := List.pairwise_cons.mp hl
    by_cases hxy : y.time ≤ x.time
    · rw [if_pos hxy]
      refine List.pairwise_cons.mpr ⟨?_, hl⟩
      intro z hz
      rcases List.mem_cons.mp hz with rfl | hz'
      · exact hxy
      · exact le_trans (hy z hz') hxy
    · rw [if_neg hxy]
      refine List.pairwise_cons.mpr ⟨?_, ih hys⟩
      intro z hz
      rcases (mem_insertByTime x z ys).mp hz with rfl | hz'
      · exact Nat.le_of_lt (Nat.lt_of_not_le hxy)
      · exact hy z hz'

theorem sortByTime_pairwise (l : List FileInfo) :
    (sortByTime l).Pairwise (fun a b => b.time ≤ a.time) := by
  induction l with
  | nil => exact List.Pairwise.nil
  | cons x xs ih => exact insertByTime_pairwise x (sortByTime xs) ih

theorem filter_insertByTime (x : FileInfo) (l : List FileInfo) (t : Nat) :
    (insertByTime x l).filter (fun f => f.time == t) =
      (x :: l).filter (fun f => f.time == t) := by
  induction l with
  | nil => rfl
  | cons y ys ih =>
    rw [insertByTime]
    by_cases hxy : y.time ≤ x.time
    · rw [if_pos hxy]
    · rw [if_neg hxy]
      have hlt : x.time < y.time := Nat.lt_of_not_le hxy
      by_cases hx : x.time = t
      · have hyb : (y.time == t) = false :=
          beq_eq_false_iff_ne.mpr (by omega)
        have hxb : (x.time == t) = true := beq_iff_eq.mpr hx
        simp only [List.filter_cons, hyb, hxb, if_true, if_false, ih,
          Bool.false_eq_true, Bool.true_eq_false, ite_false, ite_true]
      · have hxb : (x.time == t) = false := beq_eq_false_iff_ne.mpr hx
        simp only [List.filter_cons, hxb, ih, Bool.false_eq_true, ite_false]

theorem sortByTime_stable (l : List FileInfo) (t : Nat) :
    (sortByTime l).filter (fun f => f.time == t) =
      l.filter (fun f => f.time == t) := by
  induction l with
  | nil => rfl
  | cons x xs ih =>
    rw [sortByTime, filter_insertByTime]
    simp only [List.filter_cons, ih]

theorem isUnder_iff_exists (d : List String) :
    ∀ p, isUnder d p = true ↔ ∃ q, p = d ++ q := by
  induction d with
  | nil =>
    intro p
    simp [isUnder]
  | cons a as ih =>
    intro p
    cases p with
    | nil => simp [isUnder]
    | cons b bs =>
      simp only [isUnder, Bool.and_eq_true, beq_iff_eq, ih, List.cons_append,
        List.cons.injEq]
      constructor
      · rintro ⟨rfl, q, rfl⟩
        exact ⟨q, rfl, rfl⟩
      · rintro ⟨q, rfl, rfl⟩
        exact ⟨rfl, q, rfl⟩

theorem childName_eq (dir p : List String) (n : String)
    (h : childName? dir p = some n) : p = dir ++ [n] := by
  unfold childName? at h
  by_cases hc : (p.length = dir.length + 1 && isUnder dir p) = true
  · rw [if_pos hc] at h
    obtain ⟨hlen, hund⟩ := Bool.and_eq_true .. |>.mp hc
    obtain ⟨q, rfl⟩ := (isUnder_iff_exists dir _).mp hund
    have hlen' : dir.length + q.length = dir.length + 1 := by
      simpa using of_decide_eq_true hlen
    have hq1 : q.length = 1 := by omega
    obtain ⟨m, rfl⟩ := List.length_eq_one.mp hq1
    rw [List.getLast?_concat] at h
    injection h with h
    rw [h]
  · rw [if_neg hc] at h
    cases h

theorem statMtime_of_exists (fs : FS) (p : List String)
    (h : pathExists fs p = true) : ∃ t, statMtime fs p = some t := by
  unfold statMtime
  cases hf : fs.entries.find? (fun e => e.path == p) with
  | none =>
    exfalso
    rw [pathExists, List.any_eq_true] at h
    obtain ⟨e, he, hep⟩ := h
    exact absurd hep (by simpa using List.find?_eq_none.mp hf e he)
  | some e => exact ⟨e.mtime, rfl⟩

theorem mem_enumStat (fs1 fs2 : FS) (dir : List String) (n : String) (t : Nat)
    (hr : n ∈ readdir fs1 dir) (hex : pathExists fs2 (dir ++ [n]) = true)
    (hm : statMtime fs2 (dir ++ [n]) = some t) :
    (⟨n, t⟩ : FileInfo) ∈ enumStat fs1 fs2 dir := by
  unfold enumStat
  refine List.mem_filterMap.mpr ⟨n, hr, ?_⟩
  rw [if_pos hex, hm]
  rfl

theorem enumStat_name (fs1 fs2 : FS) (dir : List String) (fi : FileInfo)
    (h : fi ∈ enumStat fs1 fs2 dir) :
    fi.name ∈ readdir fs1 dir ∧ pathExists fs2 (dir ++ [fi.name]) = true := by
  unfold enumStat at h
  obtain ⟨a, ha, hfa⟩ := List.mem_filterMap.mp h
  by_cases hex : pathExists fs2 (dir ++ [a]) = true
  · rw [if_pos hex] at hfa
    obtain ⟨t, -, hfi⟩ := Option.map_eq_some'.mp hfa
    rw [← hfi]
    exact ⟨ha, hex⟩
  · rw [if_neg hex] at hfa
    cases hfa

/-- C7: the listing maps the stat pass through the stable time-descending
sort; the sorted list is a permutation of the statted entries, ordered by
non-increasing modification time with ties kept in enumeration order; every
enumerated name is a direct child of the directory; a name that vanished
between enumeration and stat is silently dropped, and every surviving name is
listed. -/
theorem C7_listing (fs1 fs2 : FS) (dir : List String) :
    listFiles fs1 fs2 dir =
      (sortByTime (enumStat fs1 fs2 dir)).map FileInfo.name ∧
    (sortByTime (enumStat fs1 fs2 dir)).Perm (enumStat fs1 fs2 dir) ∧
    (sortByTime (enumStat fs1 fs2 dir)).Pairwise (fun a b => b.time ≤ a.time) ∧
    (∀ t, (sortByTime (enumStat fs1 fs2 dir)).filter (fun f => f.time == t) =
      (enumStat fs1 fs2 dir).filter (fun f => f.time == t)) ∧
    (∀ n ∈ readdir fs1 dir, ∃ e ∈ fs1.entries, e.path = dir ++ [n]) ∧
    (∀ n ∈ readdir fs1 dir, pathExists fs2 (dir ++ [n]) = false →
      n ∉ listFiles fs1 fs2 dir) ∧
    (∀ n ∈ readdir fs1 dir, pathExists fs2 (dir ++ [n]) = true →
      n ∈ listFiles fs1 fs2 dir) := by
  refine ⟨rfl, sortByTime_perm _, sortByTime_pairwise _,
    fun t => sortByTime_stable _ t, ?_, ?_, ?_⟩
  · intro n hn
    obtain ⟨e, he, hce⟩ := List.mem_filterMap.mp hn
    exact ⟨e, he, childName_eq _ _ _ hce⟩
  · intro n _hn hex hmem
    unfold listFiles at hmem
    obtain ⟨fi, hfi, hname⟩ := List.mem_map.mp hmem
    have hfi' : fi ∈ enumStat fs1 fs2 dir := (sortByTime_perm _).subset hfi
    have hfe := (enumStat_name fs1 fs2 dir fi hfi').2
    rw [hname, hex] at hfe
    exact Bool.noConfusion hfe
  · intro n hn hex
    obtain ⟨t, ht⟩ := statMtime_of_exists fs2 (dir ++ [n]) hex
    have hfi : (⟨n, t⟩ : FileInfo) ∈ enumStat fs1 fs2 dir :=
      mem_enumStat fs1 fs2 dir n t hn hex ht
    have hmem : (⟨n, t⟩ : FileInfo) ∈ sortByTime (enumStat fs1 fs2 dir) :=
      (sortByTime_perm _).mem_iff.mpr hfi
    exact List.mem_map.mpr ⟨⟨n, t⟩, hmem, rfl⟩

theorem C7_witness :
    "b" ∉ listFiles fsSnap1 fsSnap2 ["u"] ∧
    "a" ∈ listFiles fsSnap1 fsSnap2 ["u"] :=
  ⟨(C7_listing fsSnap1 fsSnap2 ["u"]).2.2.2.2.2.1 "b" (by decide) (by decide),
   (C7_listing fsSnap1 fsSnap2 ["u"]).2.2.2.2.2.2 "a" (by decide) (by decide)⟩

end Uplite

